import Mathlib

set_option maxRecDepth 100000

/-
Verification development for the hackrx-llm-system repository.

The Python code is shallowly embedded: a Python str is modelled as a
`List Nat` of Unicode code points (the claims only exercise ASCII data, so
the ASCII ranges of the character classes are what the definitions spell
out), regex substitutions are modelled as explicit left-to-right scanners
with the same non-overlapping, leftmost-match semantics, and effectful
boundaries (HTTP download, PDF parsing, the generation model, the vector
store) are modelled as explicit oracle parameters or state records.
-/

/-- Code points of a string literal, used to write concrete Python strings. -/
def encode (s : String) : List Nat := s.data.map Char.toNat

/-- Python regex whitespace class on ASCII: space, tab, newline, carriage
return, vertical tab, form feed. -/
def isWs (c : Nat) : Bool :=
  decide (c = 32 ∨ c = 9 ∨ c = 10 ∨ c = 13 ∨ c = 11 ∨ c = 12)

/-- ASCII decimal digit, the ASCII case of the regex class backslash-d. -/
def isDigit (c : Nat) : Bool := decide (48 ≤ c ∧ c ≤ 57)

/-- ASCII lowercase letter, range a-z. -/
def isLower (c : Nat) : Bool := decide (97 ≤ c ∧ c ≤ 122)

/-- ASCII uppercase letter, range A-Z. -/
def isUpper (c : Nat) : Bool := decide (65 ≤ c ∧ c ≤ 90)

/-- ASCII letter, the character class A-Za-z. -/
def isAlpha (c : Nat) : Bool := isLower c || isUpper c

/-- ASCII lowering of one code point (Python str.lower on ASCII). -/
def toLowerC (c : Nat) : Nat := if isUpper c = true then c + 32 else c

/-- ASCII uppering of one code point (Python str.upper on ASCII). -/
def toUpperC (c : Nat) : Nat := if isLower c = true then c - 32 else c

/-- Drop a maximal whitespace suffix (helper for Python str.strip). -/
def dropTrailingWs : List Nat → List Nat
  | [] => []
  | c :: cs =>
    let r := dropTrailingWs cs
    if r.isEmpty ∧ isWs c = true then [] else c :: r

/-- Python str.strip: remove leading and trailing whitespace. -/
def stripL (l : List Nat) : List Nat := dropTrailingWs (l.dropWhile isWs)

/-- Does the second list start with the first one (Python str.startswith)? -/
def startsWith : List Nat → List Nat → Bool
  | [], _ => true
  | _ :: _, [] => false
  | a :: as, b :: bs => a == b && startsWith as bs

/-- Python substring containment, the expression p in s. -/
def containsSub (p : List Nat) : List Nat → Bool
  | [] => startsWith p []
  | c :: cs => startsWith p (c :: cs) || containsSub p cs

/-- Case-insensitive prefix test: both sides are lowered, as under the
regex IGNORECASE flag restricted to ASCII. -/
def startsWithCI : List Nat → List Nat → Bool
  | [], _ => true
  | _ :: _, [] => false
  | a :: as, b :: bs => toLowerC a == toLowerC b && startsWithCI as bs

/-- Collapse every maximal whitespace run into one space; the flag records
whether the previous character belonged to a whitespace run. -/
def collapseWsAux (prevWs : Bool) : List Nat → List Nat
  | [] => []
  | c :: cs =>
    if isWs c = true then
      if prevWs then collapseWsAux true cs else 32 :: collapseWsAux true cs
    else c :: collapseWsAux false cs

/-- The substitution re.sub of one-or-more whitespace by a single space. -/
def collapseWs (l : List Nat) : List Nat := collapseWsAux false l

/-- The substitution inserting a space between a lowercase letter and an
immediately following uppercase letter (pattern lowercase-uppercase pair,
replacement group one, space, group two); matches are non-overlapping and
scanning resumes after a match, exactly as re.sub does. -/
def fuseLowerUpper : List Nat → List Nat
  | a :: b :: rest =>
    if isLower a && isUpper b then a :: 32 :: b :: fuseLowerUpper rest
    else a :: fuseLowerUpper (b :: rest)
  | l => l

/-- The substitution inserting a space between a digit run and an
immediately following letter. A failed match attempt starting inside a
digit run fails for every later start inside the same run (it sees the
same following character), so the scanner resumes after the run. Fuel is
the length of the list, which bounds the number of scanning steps. -/
def digitLetterFixAux : Nat → List Nat → List Nat
  | 0, l => l
  | _ + 1, [] => []
  | fuel + 1, c :: cs =>
    if isDigit c = true then
      let ds := cs.takeWhile isDigit
      let rest := cs.dropWhile isDigit
      match rest with
      | r :: rest2 =>
        if isAlpha r = true then (c :: ds) ++ 32 :: r :: digitLetterFixAux fuel rest2
        else (c :: ds) ++ digitLetterFixAux fuel rest
      | [] => c :: ds
    else c :: digitLetterFixAux fuel cs

/-- Entry point of the digit-letter spacing substitution. -/
def digitLetterFix (l : List Nat) : List Nat := digitLetterFixAux l.length l

/-- The substitution gluing a digit run to a following percent sign,
deleting the whitespace between them (pattern digits, optional whitespace,
percent; replacement group one then percent). A match attempt needs the
percent right after the maximal digit and whitespace runs, so a failure
lets the scanner emit the runs and resume at the next non-whitespace
character. -/
def pctFixAux : Nat → List Nat → List Nat
  | 0, l => l
  | _ + 1, [] => []
  | fuel + 1, c :: cs =>
    if isDigit c = true then
      let ds := cs.takeWhile isDigit
      let rest1 := cs.dropWhile isDigit
      let ws := rest1.takeWhile isWs
      let rest2 := rest1.dropWhile isWs
      match rest2 with
      | 37 :: rest3 => (c :: ds) ++ 37 :: pctFixAux fuel rest3
      | _ => (c :: ds) ++ ws ++ pctFixAux fuel rest2
    else c :: pctFixAux fuel cs

/-- Entry point of the percent spacing substitution. -/
def pctFix (l : List Nat) : List Nat := pctFixAux l.length l

/-- First alternative of an ordered alternation that the remaining text
starts with (regex alternation tries alternatives left to right). -/
def matchAlt (alts : List (List Nat)) (l : List Nat) : Option (List Nat) :=
  alts.find? (fun a => startsWith a l)

/-- The substitution normalizing the spacing between a digit run and a
following unit word to exactly one space (pattern digits, optional
whitespace, unit alternation; replacement group one, space, group two).
The alternation list carries the greedy expansion order of the source
pattern. -/
def unitFixAux (alts : List (List Nat)) : Nat → List Nat → List Nat
  | 0, l => l
  | _ + 1, [] => []
  | fuel + 1, c :: cs =>
    if isDigit c = true then
      let ds := cs.takeWhile isDigit
      let rest1 := cs.dropWhile isDigit
      let ws := rest1.takeWhile isWs
      let rest2 := rest1.dropWhile isWs
      match matchAlt alts rest2 with
      | some u => (c :: ds) ++ 32 :: u ++ unitFixAux alts fuel (rest2.drop u.length)
      | none => (c :: ds) ++ ws ++ unitFixAux alts fuel rest2
    else c :: unitFixAux alts fuel cs

/-- Alternatives of the time-period pattern years, days, months with an
optional final s, in the order the regex engine tries them. -/
def timeUnitAlts : List (List Nat) :=
  [encode "years", encode "year", encode "days", encode "day",
   encode "months", encode "month"]

/-- The time-period spacing substitution of the chunk cleaner. -/
def timeUnitFix (l : List Nat) : List Nat := unitFixAux timeUnitAlts l.length l

/-- Alternatives of the currency-amount pattern lakhs, crores with an
optional final s, in the order the regex engine tries them. -/
def moneyUnitAlts : List (List Nat) :=
  [encode "lakhs", encode "lakh", encode "crores", encode "crore"]

/-- The currency-amount spacing substitution of the chunk cleaner. -/
def moneyUnitFix (l : List Nat) : List Nat := unitFixAux moneyUnitAlts l.length l

/-- Index of the last newline of a list (only consulted when one exists). -/
def lastNlIdx (l : List Nat) : Nat := l.length - 1 - l.reverse.findIdx (· == 10)

/-- The substitution collapsing three-or-more newlines (with interleaved
whitespace) into two. A match starts at a newline whose maximal whitespace
run contains at least three newlines, spans through the last newline of
that run, and is replaced by two newlines. -/
def tripleNlFixAux : Nat → List Nat → List Nat
  | 0, l => l
  | _ + 1, [] => []
  | fuel + 1, c :: cs =>
    if c == 10 then
      let run := (c :: cs).takeWhile isWs
      if 3 ≤ (run.filter (· == 10)).length then
        10 :: 10 :: tripleNlFixAux fuel ((c :: cs).drop (lastNlIdx run + 1))
      else c :: tripleNlFixAux fuel cs
    else c :: tripleNlFixAux fuel cs

/-- Entry point of the triple-newline collapsing substitution. -/
def tripleNlFix (l : List Nat) : List Nat := tripleNlFixAux l.length l

/-
Embedding of src/app/services/document_processor.py.
-/

/-- Configuration record of the RecursiveCharacterTextSplitter. -/
structure SplitterConfig where
  chunkSize : Nat
  chunkOverlap : Nat
  separators : List (List Nat)
deriving DecidableEq

/-- The text splitter configuration built in process_document_from_url
(document_processor.py lines 45 to 62). -/
def textSplitter : SplitterConfig :=
  { chunkSize := 800
    chunkOverlap := 100
    separators :=
      [encode "\n\n\n", encode "\n\n", encode "\n", encode ". ", encode "? ",
       encode "! ", encode "; ", encode ": ", encode ", ", encode " ", encode ""] }

/-- The chunk_strategy line of the root endpoint of main.py, the
self-description of the chunking configuration (also repeated by the
health endpoint). -/
def chunkStrategyDescription : List Nat := encode "800 chars, 150 overlap"

/-- The cleaning applied to a surviving chunk (document_processor.py
lines 76 to 87): whitespace collapse, fused-word repair, digit-letter
spacing, percent spacing, time-period spacing, currency spacing,
triple-newline collapse, final strip. -/
def cleanChunkContent (content : List Nat) : List Nat :=
  let c1 := collapseWs content
  let c2 := fuseLowerUpper c1
  let c3 := digitLetterFix c2
  let c4 := pctFix c3
  let c5 := timeUnitFix c4
  let c6 := moneyUnitFix c5
  let c7 := tripleNlFix c6
  stripL c7

/-- Keyword lexicon of the age_eligibility category. -/
def ageKeywords : List (List Nat) :=
  [encode "age", encode "entry", encode "eligibility", encode "minimum", encode "maximum"]

/-- Keyword lexicon of the benefits category. -/
def benefitsKeywords : List (List Nat) :=
  [encode "maturity", encode "benefit", encode "sum assured", encode "death"]

/-- Keyword lexicon of the premium category. -/
def premiumKeywords : List (List Nat) :=
  [encode "premium", encode "payment", encode "frequency", encode "mode"]

/-- Keyword lexicon of the riders category. -/
def ridersKeywords : List (List Nat) :=
  [encode "rider", encode "add-on", encode "additional", encode "optional"]

/-- Keyword lexicon of the loan_surrender category. -/
def loanKeywords : List (List Nat) :=
  [encode "loan", encode "surrender", encode "advance"]

/-- Keyword lexicon of the free_look category. -/
def freeLookKeywords : List (List Nat) :=
  [encode "free look", encode "cancellation", encode "cooling"]

/-- Keyword lexicon of the exclusions category. -/
def exclusionKeywords : List (List Nat) :=
  [encode "suicide", encode "exclusion", encode "exception"]

/-- Keyword lexicon of the revival category. -/
def revivalKeywords : List (List Nat) :=
  [encode "revival", encode "lapse", encode "reinstatement"]

/-- Keyword lexicon of the tax_benefits category. -/
def taxKeywords : List (List Nat) :=
  [encode "tax", encode "80c", encode "10(10d)", encode "deduction"]

/-- The ordered category table of the if/elif chain of
document_processor.py lines 102 to 119: the first entry whose lexicon
matches wins. -/
def categoryLexicons : List (List Nat × List (List Nat)) :=
  [(encode "age_eligibility", ageKeywords),
   (encode "benefits", benefitsKeywords),
   (encode "premium", premiumKeywords),
   (encode "riders", ridersKeywords),
   (encode "loan_surrender", loanKeywords),
   (encode "free_look", freeLookKeywords),
   (encode "exclusions", exclusionKeywords),
   (encode "revival", revivalKeywords),
   (encode "tax_benefits", taxKeywords)]

/-- The lexicon test of the source: any keyword occurs as a substring of
the lowered content. -/
def contentMatches (kws : List (List Nat)) (contentLower : List Nat) : Bool :=
  kws.any (fun k => containsSub k contentLower)

/-- The category assignment of document_processor.py lines 100 to 121:
lower the content, walk the if/elif chain, fall back to general. The
stored metadata value is a single string under the key category. -/
def assignCategory (content : List Nat) : List Nat :=
  match categoryLexicons.find? (fun p => contentMatches p.2 (content.map toLowerC)) with
  | some p => p.1
  | none => encode "general"

/-- The filter-and-clean loop over split chunks (document_processor.py
lines 67 to 123): strip the raw content, drop it when shorter than 40
characters, otherwise keep its cleaned form. -/
def enhanceChunks : List (List Nat) → List (List Nat)
  | [] => []
  | d :: ds =>
    if (stripL d).length < 40 then enhanceChunks ds
    else cleanChunkContent (stripL d) :: enhanceChunks ds

/-- Outcome of the HTTP download (requests.get plus iter_content). -/
inductive DownloadResult where
  | ok (content : List Nat)
  | timeout
  | connectionError
  | httpError (code : Nat)

/-- Outcome of PyPDFLoader.load: a list of page texts, or a raised error. -/
inductive PdfLoadResult where
  | pages (ps : List (List Nat))
  | failure (msg : List Nat)

/-- Result of process_document_from_url: the returned chunk list, or the
message of the raised exception. -/
inductive ProcessResult where
  | ok (chunks : List (List Nat))
  | raised (msg : List Nat)

/-- Embedding of process_document_from_url (document_processor.py lines 9
to 141). The page splitter, the download outcome and the PDF parse outcome
are oracle parameters. The second component of the result records whether
the temporary PDF file still exists after the call: the file is created
before the try block, and the finally block removes it when present, on
the success path and on every raising path alike. Numeric interpolations
inside the exception messages are elided. -/
def process_document_from_url (split : List (List Nat) → List (List Nat))
    (download : DownloadResult) (load : PdfLoadResult) : ProcessResult × Bool :=
  let tempCreated := true
  let body : ProcessResult :=
    match download with
    | .timeout => .raised (encode "Timeout occurred while downloading document")
    | .connectionError => .raised (encode "Connection error while downloading document")
    | .httpError _ => .raised (encode "HTTP error while downloading document")
    | .ok _ =>
      match load with
      | .failure m => .raised (encode "Error processing document: " ++ m)
      | .pages ps =>
        if ps.isEmpty then
          .raised (encode "Error processing document: No content could be extracted from the PDF")
        else .ok (enhanceChunks (split ps))
  let tempAfterFinally := if tempCreated then false else tempCreated
  (body, tempAfterFinally)

/-
Embedding of src/app/services/vector_store_manager.py.
-/

/-- Abstract state of the Pinecone service: the existing index names and,
per namespace, the number of stored vectors. -/
structure PineconeState where
  indexes : List (List Nat)
  counts : List (List Nat × Nat)
deriving DecidableEq

/-- Vector count of a namespace (zero when the namespace is empty). -/
def lookupCount (counts : List (List Nat × Nat)) (ns : List Nat) : Nat :=
  match counts.find? (fun p => p.1 == ns) with
  | some p => p.2
  | none => 0

/-- Insert k freshly embedded vectors into a namespace: the namespace is
created on first use and its count always grows by k. -/
def addVectors (counts : List (List Nat × Nat)) (ns : List Nat) (k : Nat) :
    List (List Nat × Nat) :=
  if (counts.find? (fun p => p.1 == ns)).isSome then
    counts.map (fun p => if p.1 == ns then (p.1, p.2 + k) else p)
  else counts ++ [(ns, k)]

/-- The fixed persistent index name of vector_store_manager.py line 32. -/
def pineconeIndexName : List Nat := encode "hackrx-final"

/-- Embedding of get_vectorstore (vector_store_manager.py lines 9 to 63).
The digest parameter models the eight-character truncated md5 hex digest
of the document url. The function ensures the fixed index exists, then
unconditionally calls PineconeVectorStore.from_documents, which embeds
every chunk and inserts the resulting vectors into the namespace; no code
path queries the vector count of the namespace or returns without
inserting. The result carries the namespace, the new service state, and
the number of chunks embedded during the call. -/
def get_vectorstore (digest8 : List Nat → List Nat) (st : PineconeState)
    (chunkedDocs : List (List Nat)) (documentUrl : List Nat) :
    List Nat × PineconeState × Nat :=
  let ns := digest8 documentUrl
  let st1 :=
    if st.indexes.contains pineconeIndexName then st
    else { st with indexes := st.indexes ++ [pineconeIndexName] }
  let embedded := chunkedDocs.length
  let st2 := { st1 with counts := addVectors st1.counts ns embedded }
  (ns, st2, embedded)

/-
Embedding of clean_and_validate_answer from src/app/services/rag_chain.py
(lines 130 to 148).
-/

/-- The sentinel text of clean_and_validate_answer and of the prompt. -/
def notSpecifiedSentinel : List Nat :=
  encode "This information is not specified in the policy document."

/-- Does the text end in a terminal punctuation mark (period, exclamation
mark, question mark), as str.endswith tests in the source? -/
def endsTerminalB (l : List Nat) : Bool :=
  match l.getLast? with
  | some c => c == 46 || c == 33 || c == 63
  | none => false

/-- Append a period when the text does not already end in terminal
punctuation (rag_chain.py line 137). -/
def ensurePunct (l : List Nat) : List Nat :=
  if endsTerminalB l then l else l ++ [46]

/-- Upper the first character when it is a lowercase letter
(rag_chain.py lines 139 to 140). -/
def capFirst : List Nat → List Nat
  | [] => []
  | c :: cs => if isLower c = true then toUpperC c :: cs else c :: cs

/-- Is the first character a lowercase letter? -/
def firstIsLower : List Nat → Bool
  | [] => false
  | c :: _ => isLower c

/-- The three boilerplate phrases of the hedge-stripping pattern of
rag_chain.py line 141 (an apostrophe is written by code point 39). -/
def phrasePleaseNote : List Nat := encode "Please note"

/-- Second boilerplate phrase, with its apostrophe. -/
def phraseImportant : List Nat :=
  encode "It" ++ [39] ++ encode "s important to note"

/-- Third boilerplate phrase. -/
def phraseAccording : List Nat := encode "According to the document"

/-- Length of the first boilerplate phrase the text starts with under
case-insensitive comparison, in the order of the source alternation. -/
def matchPhraseLen (l : List Nat) : Option Nat :=
  if startsWithCI phrasePleaseNote l then some phrasePleaseNote.length
  else if startsWithCI phraseImportant l then some phraseImportant.length
  else if startsWithCI phraseAccording l then some phraseAccording.length
  else none

/-- Length the lazy dot-star consumes up to the lookahead before the next
period or the end of the text; none when a newline intervenes (the dot of
the pattern does not match a newline, so such a position has no match). -/
def scanToDot : List Nat → Option Nat
  | [] => some 0
  | c :: cs =>
    if c == 46 then some 0
    else if c == 10 then none
    else (scanToDot cs).map (· + 1)

/-- The hedge-stripping substitution: at each position, when a boilerplate
phrase starts there and a period or the end of the text is reachable, the
phrase and everything up to (excluding) that period are deleted and the
scan resumes there; otherwise the character is kept. Fuel is the length of
the text, which bounds the number of scanning steps because every step
consumes at least one character. -/
def removeBoilerAux : Nat → List Nat → List Nat
  | 0, l => l
  | _ + 1, [] => []
  | fuel + 1, c :: cs =>
    match matchPhraseLen (c :: cs) with
    | some n =>
      let after := (c :: cs).drop n
      match scanToDot after with
      | some m => removeBoilerAux fuel (after.drop m)
      | none => c :: removeBoilerAux fuel cs
    | none => c :: removeBoilerAux fuel cs

/-- Entry point of the hedge-stripping substitution. -/
def removeBoiler (l : List Nat) : List Nat := removeBoilerAux l.length l

/-- Does the text contain the two-character separator period-space? -/
def hasDotSpace : List Nat → Bool
  | 46 :: 32 :: _ => true
  | _ :: cs => hasDotSpace cs
  | [] => false

/-- The prefix of the text before the last occurrence of the separator
period-space, or the whole text when the separator does not occur: the
first component of str.rsplit with one split. -/
def beforeLastDotSpace : List Nat → List Nat
  | [] => []
  | c :: cs =>
    if c == 46 ∧ cs.head? = some 32 ∧ hasDotSpace cs = false then []
    else c :: beforeLastDotSpace cs

/-- The final truncation of rag_chain.py lines 145 to 146: texts longer
than 320 characters are cut to their first 300 characters, backed up to
the last sentence boundary inside that prefix when one exists, and closed
with a period. -/
def finalTrunc (l : List Nat) : List Nat :=
  if 320 < l.length then beforeLastDotSpace (l.take 300) ++ [46] else l

/-- The normalization steps of clean_and_validate_answer that precede the
hedge-stripping: strip, whitespace collapse, percent spacing, currency
spacing, punctuation enforcement, capitalization (rag_chain.py lines 134
to 140); Rs-spacing uses the same digit-scan shape as the percent fix. -/
def rsFixAux : Nat → List Nat → List Nat
  | 0, l => l
  | _ + 1, [] => []
  | fuel + 1, c :: cs =>
    if c = 82 ∧ cs.head? = some 115 then
      let rest := cs.tail
      let rest1 := if rest.head? = some 46 then rest.tail else rest
      let rest2 := rest1.dropWhile isWs
      let ds := rest2.takeWhile isDigit
      let rest3 := rest2.dropWhile isDigit
      if ds.isEmpty then 82 :: rsFixAux fuel cs
      else encode "Rs. " ++ ds ++ rsFixAux fuel rest3
    else c :: rsFixAux fuel cs

/-- The substitution normalizing Rs amounts (pattern capital R, s, optional
period, optional whitespace, digits; replacement Rs, period, space, the
digits). On a failed attempt no later match can start at the following s,
so the scanner resumes one character further. -/
def rsFix (l : List Nat) : List Nat := rsFixAux l.length l

/-- The cleaning steps before the hedge-stripping, as one named pipeline. -/
def preNormalize (a : List Nat) : List Nat :=
  capFirst (ensurePunct (rsFix (pctFix (collapseWs (stripL a)))))

/-- Embedding of clean_and_validate_answer (rag_chain.py lines 130 to
148): empty or too-short raw answers become the sentinel; otherwise the
answer is normalized, hedge phrases are stripped, whitespace is collapsed
again, and an over-length answer is truncated. -/
def clean_and_validate_answer (a : List Nat) : List Nat :=
  if a.isEmpty ∨ (stripL a).length < 10 then notSpecifiedSentinel
  else finalTrunc (stripL (collapseWs (removeBoiler (preNormalize a))))

/-
Embedding of src/app/main.py: the per-question retry loop
(process_single_question_with_retries_and_logging, lines 78 to 154) and
the pre-flight validation of run_submission (lines 163 to 200).
-/

/-- Outcome of one rag_chain.invoke call: a returned answer text, or a
raised exception with its message. -/
inductive GenOutcome where
  | ok (answer : List Nat)
  | raised (msg : List Nat)
deriving DecidableEq

/-- The generic-phrase list of main.py lines 107 to 110. -/
def genericPhrases : List (List Nat) :=
  [encode "not specified", encode "not detailed", encode "not mentioned",
   encode "not found", encode "not available", encode "information is not"]

/-- The genericness test of main.py line 112: some generic phrase occurs
in the lowered answer. -/
def isGenericAnswer (a : List Nat) : Bool :=
  genericPhrases.any (fun p => containsSub p (a.map toLowerC))

/-- The retry bound max_retries of main.py line 86. -/
def maxRetries : Nat := 3

/-- The sentinel text returned by the retry loop on exhaustion
(main.py lines 138 and 154). -/
def notDetailedSentinel : List Nat :=
  encode "This specific information is not detailed in the available policy sections."

/-- The acceptance decision of main.py lines 106 to 129 for a generated
answer: a truthy answer longer than 15 stripped characters is returned,
except that a generic answer shorter than 100 characters is retried while
attempts remain; everything else is retried. -/
def acceptsAnswer (attempt : Nat) (answer : List Nat) : Bool :=
  if answer.isEmpty = false ∧ 15 < (stripL answer).length then
    if isGenericAnswer answer = true ∧ answer.length < 100 then
      if attempt < maxRetries - 1 then false else true
    else true
  else false

/-- The enhanced question text of main.py line 96. -/
def enhancedQ (question : List Nat) : List Nat :=
  encode "Insurance Policy Analysis: " ++ stripL question

/-- The attempt loop of main.py lines 88 to 154, structurally recursive on
the number of remaining attempts (the invariant attempt plus remaining
equals max_retries holds at every call). An exhausted loop and a raising
final attempt both produce the sentinel; database logging and the sleeps
between attempts are external effects outside the model. -/
def attemptLoop (gen : List Nat → Nat → GenOutcome) (question : List Nat) :
    Nat → Nat → List Nat
  | _, 0 => notDetailedSentinel
  | attempt, remaining + 1 =>
    if (stripL question).isEmpty = true then encode "Invalid question provided."
    else
      match gen (enhancedQ question) attempt with
      | .ok answer =>
        if acceptsAnswer attempt answer then answer
        else attemptLoop gen question (attempt + 1) remaining
      | .raised _ =>
        if attempt = maxRetries - 1 then notDetailedSentinel
        else attemptLoop gen question (attempt + 1) remaining

/-- Embedding of process_single_question_with_retries_and_logging: run the
attempt loop from attempt zero with max_retries attempts available. -/
def process_single_question (gen : List Nat → Nat → GenOutcome)
    (question : List Nat) : List Nat :=
  attemptLoop gen question 0 maxRetries

/-- One step of the request pipeline of run_submission, recorded in the
order the code performs them. -/
inductive PipelineAction where
  | checkDocumentCached
  | createSession
  | processDocument
  | createVectorstore
  | buildRagChain
  | answerQuestion
deriving DecidableEq

/-- Outcome of run_submission as seen by the HTTP layer. -/
inductive RunOutcome where
  | httpError (code : Nat) (detail : List Nat)
  | completed
deriving DecidableEq

/-- A run of run_submission: the pipeline steps performed and the outcome. -/
structure RunTrace where
  actions : List PipelineAction
  outcome : RunOutcome
deriving DecidableEq

/-- Embedding of the validation and step sequence of run_submission
(main.py lines 163 to 266): an empty documents url or an empty question
list, and more than 25 questions, are rejected with status 400 before any
pipeline step runs; otherwise the pipeline steps execute in order (their
internal failure handling is outside what the claims need). -/
def run_submission (documents : List Nat) (questions : List (List Nat)) :
    RunTrace :=
  if documents.isEmpty = true ∨ questions.isEmpty = true then
    ⟨[], .httpError 400 (encode "Both documents URL and questions are required")⟩
  else if 25 < questions.length then
    ⟨[], .httpError 400 (encode "Maximum 25 questions allowed per request")⟩
  else
    ⟨[.checkDocumentCached, .createSession, .processDocument,
      .createVectorstore, .buildRagChain] ++
      questions.map (fun _ => .answerQuestion), .completed⟩

/-- Is the first character an uppercase letter? -/
def firstIsUpper : List Nat → Bool
  | [] => false
  | c :: _ => isUpper c

/-- A Pinecone state in which the namespace of the demonstration url
already holds five vectors. -/
def cachedState : PineconeState :=
  { indexes := [pineconeIndexName], counts := [(encode "ab12cd34", 5)] }

/-- A concrete digest function standing in for the truncated md5 hex
digest of the document url. -/
def demoDigest8 : List Nat → List Nat := fun _ => encode "ab12cd34"

/-- A chunk whose stripped raw text is exactly 40 characters long but
shrinks under whitespace collapsing. -/
def wideSpacedChunk : List Nat :=
  encode "a  b  c  d  e  f  g  h  i  j  k  l  m  n"

/-- A chunk text that matches both the age_eligibility lexicon and the
premium lexicon. -/
def multiTopicChunk : List Nat := encode "Premium payments and entry age rules."

/-- A generated answer that is generic (it contains the phrase not
specified), shorter than 100 characters, and longer than 15 stripped
characters. -/
def genericShortAnswer : List Nat := encode "The matter is not specified here."

/-- A generation oracle whose every call raises. -/
def allFailGen : List Nat → Nat → GenOutcome := fun _ _ => .raised (encode "boom")

/-- Claim C1, evaluation at the failing input: the namespace of the url
already holds five vectors (a cache hit in the sense of the claim), yet
get_vectorstore embeds the one submitted chunk (one embedding call, not
zero) and raises the vector count of the namespace from five to six. The
code never queries the vector count, contradicting the claim and the
self-description of the health endpoint (automatic vector reuse). -/
theorem C1_cache_hit_still_embeds :
    lookupCount cachedState.counts (encode "ab12cd34") = 5 ∧
    (get_vectorstore demoDigest8 cachedState [encode "chunk text"]
        (encode "https://example.com/doc.pdf")).2.2 = 1 ∧
    lookupCount (get_vectorstore demoDigest8 cachedState [encode "chunk text"]
        (encode "https://example.com/doc.pdf")).2.1.counts (encode "ab12cd34") = 6 := by
  decide

/-- Claim C2, counterexample: a chunk matching both the age_eligibility
lexicon and the premium lexicon receives the single category tag
age_eligibility, not both — the if/elif chain assigns exactly one
category, so a chunk can never carry two categories simultaneously (nor
zero). -/
theorem C2_counterexample :
    contentMatches ageKeywords (multiTopicChunk.map toLowerC) = true ∧
    contentMatches premiumKeywords (multiTopicChunk.map toLowerC) = true ∧
    assignCategory multiTopicChunk = encode "age_eligibility" ∧
    assignCategory multiTopicChunk ≠ encode "premium" := by
  decide

/-- Claim C3, counterexample: a raw chunk of exactly 40 characters passes
the minimum-length filter, but whitespace collapsing shrinks its cleaned
text to 27 characters, so a chunk whose final text is far below the
configured minimum of 40 appears in the ingestion output. -/
theorem C3_counterexample :
    wideSpacedChunk.length = 40 ∧
    enhanceChunks [wideSpacedChunk] = [encode "a b c d e f g h i j k l m n"] ∧
    (encode "a b c d e f g h i j k l m n").length = 27 := by
  decide

/-- Claim C4, evaluation at the failing input: the splitter is configured
with chunk size 800 but overlap 100, not the claimed (and self-documented,
via the chunk_strategy line of the root and health endpoints) 150. -/
theorem C4_overlap_is_100 :
    textSplitter.chunkSize = 800 ∧
    textSplitter.chunkOverlap = 100 ∧
    textSplitter.chunkOverlap ≠ 150 ∧
    chunkStrategyDescription = encode "800 chars, 150 overlap" := by
  decide

/-- Claim C5, counterexample: when all three attempts raise, the loop
returns the sentinel of main.py — This specific information is not
detailed in the available policy sections — which differs from the text
the claim names (the rag-chain sentinel This information is not specified
in the policy document). -/
theorem C5_counterexample :
    process_single_question allFailGen (encode "What riders are available?") =
      notDetailedSentinel ∧
    notDetailedSentinel ≠ notSpecifiedSentinel := by
  decide

/-- Claim C6, counterexample: on the final attempt (attempt index 2) an
answer that is generic and shorter than 100 characters is nevertheless
accepted, so acceptance is not equivalent to the claimed condition, which
would reject this answer on every attempt. -/
theorem C6_counterexample :
    acceptsAnswer 2 genericShortAnswer = true ∧
    isGenericAnswer genericShortAnswer = true ∧
    genericShortAnswer.length < 100 ∧
    15 < (stripL genericShortAnswer).length := by
  decide

/-- Claim C7, counterexample: an accepted input consisting of a hedge
phrase and no sentence period is cleaned to the empty text — not the
sentinel — which has length 0 (below the minimum threshold of 10), does
not end in terminal punctuation, and does not start with an uppercase
letter, violating every part of the claimed invariant. -/
theorem C7_counterexample :
    clean_and_validate_answer (encode "Please note this rule!") = [] ∧
    ([] : List Nat) ≠ notSpecifiedSentinel ∧
    endsTerminalB [] = false ∧
    firstIsUpper [] = false ∧
    ([] : List Nat).length < 10 := by
  decide

/-- Claim C9: for every download outcome and every PDF parse outcome —
success, empty extraction, and every raised exception — the temporary
local file no longer exists when process_document_from_url finishes,
because the finally block removes it on every exit path. -/
theorem C9_temp_file_always_removed (split : List (List Nat) → List (List Nat))
    (download : DownloadResult) (load : PdfLoadResult) :
    (process_document_from_url split download load).2 = false := rfl

/-- Claim C8: an empty documents url, an empty question list, and a
question list longer than 25 are each rejected with HTTP status 400
before any pipeline step runs: the action trace is empty — no cache
check, session creation, document download, chunking, or indexing is
performed. -/
theorem C8_preflight_rejects (documents : List Nat) (questions : List (List Nat))
    (h : documents = [] ∨ questions = [] ∨ 25 < questions.length) :
    (run_submission documents questions).actions = [] ∧
    ∃ d, (run_submission documents questions).outcome = RunOutcome.httpError 400 d := by
  unfold run_submission
  by_cases h1 : documents.isEmpty = true ∨ questions.isEmpty = true
  · rw [if_pos h1]
    exact ⟨rfl, _, rfl⟩
  · have h25 : 25 < questions.length := by
      rcases h with h | h | h
      · exact absurd (Or.inl (by simp [h])) h1
      · exact absurd (Or.inr (by simp [h])) h1
      · exact h
    rw [if_neg h1, if_pos h25]
    exact ⟨rfl, _, rfl⟩

/-- Witness for claim C8 at a concrete input: a request with a documents
url and no questions is rejected with status 400 and an empty trace. -/
theorem C8_preflight_rejects_witness :
    (run_submission (encode "https://example.com/doc.pdf") []).actions = [] ∧
    ∃ d, (run_submission (encode "https://example.com/doc.pdf") []).outcome =
      RunOutcome.httpError 400 d :=
  C8_preflight_rejects (encode "https://example.com/doc.pdf") []
    (Or.inr (Or.inl rfl))

/-- The first-match characterization of List.find?: when the entry at
index i satisfies the predicate and every earlier entry does not, find?
returns exactly the entry at index i. -/
theorem find?_eq_get_of_first {α : Type} (f : α → Bool) :
    ∀ (l : List α) (i : Nat) (h : i < l.length),
      f (l.get ⟨i, h⟩) = true →
      (∀ j (hj : j < i), f (l.get ⟨j, Nat.lt_trans hj h⟩) = false) →
      l.find? f = some (l.get ⟨i, h⟩) := by
  intro l
  induction l with
  | nil => intro i h; exact absurd h (by simp)
  | cons a as ih =>
    intro i h hf hprev
    cases i with
    | zero =>
      have hfa : f a = true := hf
      rw [List.find?_cons_of_pos _ hfa]
      rfl
    | succ k =>
      have hf0 : f a = false := hprev 0 (Nat.succ_pos k)
      rw [List.find?_cons_of_neg _ (by simp [hf0])]
      exact ih k (Nat.lt_of_succ_lt_succ h) hf
        (fun j hj => hprev (j + 1) (Nat.succ_lt_succ hj))

/-- Claim C2, amended: the category assignment is exhaustive-and-single:
a chunk receives the category general exactly when no lexicon matches the
lowered text, and otherwise the single stored category is the first entry
of the fixed precedence table whose lexicon matches — the entry at the
least matching index of the if/elif chain. -/
theorem C2_single_category (content : List Nat) :
    (assignCategory content = encode "general" ↔
      ∀ p ∈ categoryLexicons, contentMatches p.2 (content.map toLowerC) = false) ∧
    (∀ i (h : i < categoryLexicons.length),
      contentMatches (categoryLexicons.get ⟨i, h⟩).2 (content.map toLowerC) = true →
      (∀ j (hj : j < i),
        contentMatches (categoryLexicons.get ⟨j, Nat.lt_trans hj h⟩).2
          (content.map toLowerC) = false) →
      assignCategory content = (categoryLexicons.get ⟨i, h⟩).1) := by
  constructor
  · constructor
    · intro hg
      cases hf : categoryLexicons.find?
          (fun p => contentMatches p.2 (content.map toLowerC)) with
      | none =>
        intro p hp
        have hx := List.find?_eq_none.mp hf p hp
        simpa using hx
      | some p =>
        have hnames : ∀ q ∈ categoryLexicons, ¬ q.1 = encode "general" := by decide
        have hres : assignCategory content = p.1 := by
          unfold assignCategory
          rw [hf]
        rw [hres] at hg
        exact absurd hg (hnames p (List.mem_of_find?_eq_some hf))
    · intro hall
      have hnone : categoryLexicons.find?
          (fun p => contentMatches p.2 (content.map toLowerC)) = none := by
        apply List.find?_eq_none.mpr
        intro p hp
        simp [hall p hp]
      unfold assignCategory
      rw [hnone]
  · intro i h hm hprev
    have hfind := find?_eq_get_of_first
      (fun p => contentMatches p.2 (content.map toLowerC))
      categoryLexicons i h hm hprev
    unfold assignCategory
    rw [hfind]

/-- Witness for the amended claim C2 at concrete inputs: a chunk with no
lexicon keyword receives the category general, and a chunk whose first
matching precedence entry is the premium lexicon (index 2) receives the
category premium. -/
theorem C2_single_category_witness :
    assignCategory (encode "hello world") = encode "general" ∧
    assignCategory (encode "premium mode") = encode "premium" :=
  ⟨(C2_single_category (encode "hello world")).1.mpr (by decide),
   (C2_single_category (encode "premium mode")).2 2 (by decide)
     (by decide) (by decide)⟩

/-- Claim C3, amended: the minimum-length filter applies to the stripped
raw chunk text, before cleaning — every chunk of the ingestion output is
the cleaned form of a raw chunk whose stripped text has at least 40
characters, and every raw chunk of at least 40 stripped characters
contributes its cleaned form to the output; no bound holds for the length
of the cleaned text itself. -/
theorem C3_min_length_is_precleaning (docs : List (List Nat)) :
    (∀ c ∈ enhanceChunks docs, ∃ d ∈ docs,
        40 ≤ (stripL d).length ∧ c = cleanChunkContent (stripL d)) ∧
    (∀ d ∈ docs, 40 ≤ (stripL d).length →
        cleanChunkContent (stripL d) ∈ enhanceChunks docs) := by
  induction docs with
  | nil =>
    refine ⟨fun c hc => absurd hc ?_, fun d hd => absurd hd ?_⟩ <;> simp [enhanceChunks]
  | cons d ds ih =>
    constructor
    · intro c hc
      by_cases hlen : (stripL d).length < 40
      · have hc2 : c ∈ enhanceChunks ds := by
          simpa [enhanceChunks, hlen] using hc
        obtain ⟨e, he, h40, hce⟩ := ih.1 c hc2
        exact ⟨e, List.mem_cons_of_mem _ he, h40, hce⟩
      · have hc2 : c = cleanChunkContent (stripL d) ∨ c ∈ enhanceChunks ds := by
          simpa [enhanceChunks, hlen] using hc
        rcases hc2 with h | h
        · exact ⟨d, List.mem_cons_self _ _, by omega, h⟩
        · obtain ⟨e, he, h40, hce⟩ := ih.1 c h
          exact ⟨e, List.mem_cons_of_mem _ he, h40, hce⟩
    · intro e he h40
      rcases List.mem_cons.mp he with rfl | he2
      · have hlen : ¬ (stripL e).length < 40 := by omega
        simp [enhanceChunks, hlen]
      · by_cases hlen : (stripL d).length < 40
        · simpa [enhanceChunks, hlen] using ih.2 e he2 h40
        · simp only [enhanceChunks, if_neg hlen]
          exact List.mem_cons_of_mem _ (ih.2 e he2 h40)

/-- Witness for the amended claim C3 at a concrete input: the 27-character
cleaned chunk of the counterexample arises from a raw chunk of stripped
length at least 40. -/
theorem C3_min_length_is_precleaning_witness :
    ∃ d ∈ [wideSpacedChunk], 40 ≤ (stripL d).length ∧
      encode "a b c d e f g h i j k l m n" = cleanChunkContent (stripL d) :=
  (C3_min_length_is_precleaning [wideSpacedChunk]).1
    (encode "a b c d e f g h i j k l m n") (by decide)

/-- A stripped answer with positive length comes from a nonempty answer. -/
theorem isEmpty_false_of_strip_len (answer : List Nat)
    (h : 0 < (stripL answer).length) : answer.isEmpty = false := by
  cases answer with
  | nil => simp [stripL, dropTrailingWs] at h
  | cons a as => rfl

/-- Claim C6, amended: an answer is accepted exactly when its stripped
length exceeds 15 and, additionally, either it is not a short generic
answer (a generic phrase plus raw length under 100) or the attempt is the
final one — on the final attempt the generic-answer rejection is disabled
and length alone decides. -/
theorem C6_acceptance_iff (attempt : Nat) (answer : List Nat) :
    acceptsAnswer attempt answer = true ↔
      (15 < (stripL answer).length ∧
        (¬(isGenericAnswer answer = true ∧ answer.length < 100) ∨
          maxRetries - 1 ≤ attempt)) := by
  unfold acceptsAnswer
  by_cases h1 : answer.isEmpty = false ∧ 15 < (stripL answer).length
  · rw [if_pos h1]
    by_cases h2 : isGenericAnswer answer = true ∧ answer.length < 100
    · rw [if_pos h2]
      by_cases h3 : attempt < maxRetries - 1
      · rw [if_pos h3]
        constructor
        · intro h; cases h
        · rintro ⟨_, hor⟩
          rcases hor with hng | hge
          · exact absurd h2 hng
          · omega
      · rw [if_neg h3]
        constructor
        · intro _; exact ⟨h1.2, Or.inr (by omega)⟩
        · intro _; rfl
    · rw [if_neg h2]
      constructor
      · intro _; exact ⟨h1.2, Or.inl h2⟩
      · intro _; rfl
  · rw [if_neg h1]
    constructor
    · intro h; cases h
    · rintro ⟨hlen, _⟩
      exact absurd ⟨isEmpty_false_of_strip_len answer (by omega), hlen⟩ h1

/-- An outcome that forces the loop to retry at a given attempt: the
generation call raised, or the answer was rejected by the acceptance
decision of that attempt. -/
def forcesRetry (o : GenOutcome) (attempt : Nat) : Prop :=
  match o with
  | .raised _ => True
  | .ok a => acceptsAnswer attempt a = false

/-- One loop step on an accepted answer returns it. -/
theorem attemptLoop_step_ok_accept (gen : List Nat → Nat → GenOutcome)
    (q : List Nat) (attempt remaining : Nat) (a : List Nat)
    (hq : (stripL q).isEmpty = false)
    (hg : gen (enhancedQ q) attempt = .ok a)
    (hacc : acceptsAnswer attempt a = true) :
    attemptLoop gen q attempt (remaining + 1) = a := by
  simp [attemptLoop, hq, hg, hacc]

/-- One loop step on a rejected answer moves to the next attempt. -/
theorem attemptLoop_step_ok_reject (gen : List Nat → Nat → GenOutcome)
    (q : List Nat) (attempt remaining : Nat) (a : List Nat)
    (hq : (stripL q).isEmpty = false)
    (hg : gen (enhancedQ q) attempt = .ok a)
    (hacc : acceptsAnswer attempt a = false) :
    attemptLoop gen q attempt (remaining + 1) =
      attemptLoop gen q (attempt + 1) remaining := by
  simp [attemptLoop, hq, hg, hacc]

/-- One loop step on a non-final raising attempt moves to the next attempt. -/
theorem attemptLoop_step_raised (gen : List Nat → Nat → GenOutcome)
    (q : List Nat) (attempt remaining : Nat) (m : List Nat)
    (hq : (stripL q).isEmpty = false)
    (hg : gen (enhancedQ q) attempt = .raised m)
    (hna : ¬ attempt = maxRetries - 1) :
    attemptLoop gen q attempt (remaining + 1) =
      attemptLoop gen q (attempt + 1) remaining := by
  simp [attemptLoop, hq, hg, hna]

/-- One loop step on the final raising attempt returns the sentinel. -/
theorem attemptLoop_step_raised_final (gen : List Nat → Nat → GenOutcome)
    (q : List Nat) (attempt remaining : Nat) (m : List Nat)
    (hq : (stripL q).isEmpty = false)
    (hg : gen (enhancedQ q) attempt = .raised m)
    (hla : attempt = maxRetries - 1) :
    attemptLoop gen q attempt (remaining + 1) = notDetailedSentinel := by
  subst hla
  simp [attemptLoop, hq, hg]

/-- Claim C5, amended: the per-question operation is total (it always
returns a text, never an exception), and when every one of the three
attempts either raises or produces a rejected answer, it returns the
sentinel of main.py — This specific information is not detailed in the
available policy sections — not the rag-chain sentinel the original claim
names. -/
theorem C5_exhaustion_returns_sentinel (gen : List Nat → Nat → GenOutcome)
    (question : List Nat)
    (hq : (stripL question).isEmpty = false)
    (h : ∀ i, i < maxRetries → forcesRetry (gen (enhancedQ question) i) i) :
    process_single_question gen question = notDetailedSentinel := by
  have h0 := h 0 (by decide)
  have h1 := h 1 (by decide)
  have h2 := h 2 (by decide)
  show attemptLoop gen question 0 (2 + 1) = notDetailedSentinel
  have step0 : attemptLoop gen question 0 (2 + 1) = attemptLoop gen question 1 (1 + 1) := by
    cases hg : gen (enhancedQ question) 0 with
    | ok a =>
      rw [hg] at h0
      exact attemptLoop_step_ok_reject gen question 0 2 a hq hg h0
    | raised m =>
      exact attemptLoop_step_raised gen question 0 2 m hq hg (by decide)
  have step1 : attemptLoop gen question 1 (1 + 1) = attemptLoop gen question 2 (0 + 1) := by
    cases hg : gen (enhancedQ question) 1 with
    | ok a =>
      rw [hg] at h1
      exact attemptLoop_step_ok_reject gen question 1 1 a hq hg h1
    | raised m =>
      exact attemptLoop_step_raised gen question 1 1 m hq hg (by decide)
  have step2 : attemptLoop gen question 2 (0 + 1) = notDetailedSentinel := by
    cases hg : gen (enhancedQ question) 2 with
    | ok a =>
      rw [hg] at h2
      rw [attemptLoop_step_ok_reject gen question 2 0 a hq hg h2]
      rfl
    | raised m =>
      exact attemptLoop_step_raised_final gen question 2 0 m hq hg (by decide)
  rw [step0, step1, step2]

/-- Witness for the amended claim C5 at a concrete input: with an oracle
that raises on every call, the sentinel of main.py is returned. -/
theorem C5_exhaustion_returns_sentinel_witness :
    process_single_question allFailGen (encode "What is the grace period?") =
      notDetailedSentinel :=
  C5_exhaustion_returns_sentinel allFailGen (encode "What is the grace period?")
    (by decide) (fun _ _ => True.intro)

/-- Claim C10: when the first two attempts force retries and the final
attempt produces a generic answer shorter than 100 characters but longer
than 15 stripped characters, that answer is returned as-is — the
generic-answer rejection is disabled on the final attempt, so the caller
receives the generic text rather than the sentinel. -/
theorem C10_final_attempt_keeps_generic (gen : List Nat → Nat → GenOutcome)
    (question a : List Nat)
    (hq : (stripL question).isEmpty = false)
    (h0 : forcesRetry (gen (enhancedQ question) 0) 0)
    (h1 : forcesRetry (gen (enhancedQ question) 1) 1)
    (h2 : gen (enhancedQ question) 2 = .ok a)
    (hg : isGenericAnswer a = true)
    (hshort : a.length < 100)
    (hlen : 15 < (stripL a).length) :
    process_single_question gen question = a := by
  have hacc : acceptsAnswer 2 a = true := by
    unfold acceptsAnswer
    rw [if_pos ⟨isEmpty_false_of_strip_len a (by omega), hlen⟩,
      if_pos ⟨hg, hshort⟩, if_neg (by decide : ¬ 2 < maxRetries - 1)]
  show attemptLoop gen question 0 (2 + 1) = a
  have step0 : attemptLoop gen question 0 (2 + 1) = attemptLoop gen question 1 (1 + 1) := by
    cases hg0 : gen (enhancedQ question) 0 with
    | ok b =>
      rw [hg0] at h0
      exact attemptLoop_step_ok_reject gen question 0 2 b hq hg0 h0
    | raised m =>
      exact attemptLoop_step_raised gen question 0 2 m hq hg0 (by decide)
  have step1 : attemptLoop gen question 1 (1 + 1) = attemptLoop gen question 2 (0 + 1) := by
    cases hg1 : gen (enhancedQ question) 1 with
    | ok b =>
      rw [hg1] at h1
      exact attemptLoop_step_ok_reject gen question 1 1 b hq hg1 h1
    | raised m =>
      exact attemptLoop_step_raised gen question 1 1 m hq hg1 (by decide)
  rw [step0, step1, attemptLoop_step_ok_accept gen question 2 0 a hq h2 hacc]

/-- A generation oracle that raises twice and then returns the generic
short answer on the final attempt. -/
def twoFailsThenGenericGen : List Nat → Nat → GenOutcome :=
  fun _ i => if i < 2 then .raised (encode "boom") else .ok genericShortAnswer

/-- Witness for claim C10 at a concrete input: after two raising attempts
the generic short answer of the final attempt is returned unchanged. -/
theorem C10_final_attempt_keeps_generic_witness :
    process_single_question twoFailsThenGenericGen (encode "What is covered?") =
      genericShortAnswer :=
  C10_final_attempt_keeps_generic twoFailsThenGenericGen (encode "What is covered?")
    genericShortAnswer (by decide) True.intro True.intro rfl
    (by decide) (by decide) (by decide)

/-- A terminal punctuation character is neither whitespace nor lowercase. -/
theorem terminal_not_ws (c : Nat) (h : (c == 46 || c == 33 || c == 63) = true) :
    isWs c = false ∧ isLower c = false := by
  simp only [Bool.or_eq_true, beq_iff_eq] at h
  rcases h with (h | h) | h <;> subst h <;> exact ⟨rfl, rfl⟩

/-- Prepending to a nonempty list keeps its last element. -/
theorem getLast?_cons_ne_nil (x : Nat) (t : List Nat) (h : t ≠ []) :
    (x :: t).getLast? = t.getLast? := by
  cases t with
  | nil => exact absurd rfl h
  | cons b bs => exact List.getLast?_cons_cons

/-- A list with a last element is nonempty. -/
theorem ne_nil_of_getLast? (t : List Nat) (c : Nat) (h : t.getLast? = some c) :
    t ≠ [] := by
  intro he
  rw [he] at h
  cases h

/-- Trailing-whitespace removal is the identity on a text whose last
character is not whitespace. -/
theorem dropTrailingWs_eq_self : ∀ (l : List Nat) (c : Nat),
    l.getLast? = some c → isWs c = false → dropTrailingWs l = l := by
  intro l
  induction l with
  | nil => intro c h _; cases h
  | cons a as ih =>
    intro c hlast hc
    cases as with
    | nil =>
      have hca : a = c := by simpa using hlast
      subst hca
      simp [dropTrailingWs, hc]
    | cons b bs =>
      rw [List.getLast?_cons_cons] at hlast
      have hr := ih c hlast hc
      have hd : dropTrailingWs (a :: b :: bs) =
          if (dropTrailingWs (b :: bs)).isEmpty ∧ isWs a = true then []
          else a :: dropTrailingWs (b :: bs) := rfl
      rw [hd, hr]
      simp

/-- Whitespace collapsing keeps the last character of a text whose last
character is not whitespace. -/
theorem collapseWsAux_getLast? : ∀ (l : List Nat) (b : Bool) (c : Nat),
    l.getLast? = some c → isWs c = false →
    (collapseWsAux b l).getLast? = some c := by
  intro l
  induction l with
  | nil => intro b c h _; cases h
  | cons a as ih =>
    intro b c hlast hc
    cases as with
    | nil =>
      have hca : a = c := by simpa using hlast
      subst hca
      simp [collapseWsAux, hc]
    | cons d ds =>
      rw [List.getLast?_cons_cons] at hlast
      have htail : ∀ bb, (collapseWsAux bb (d :: ds)).getLast? = some c :=
        fun bb => ih bb c hlast hc
      have hne : ∀ bb, collapseWsAux bb (d :: ds) ≠ [] :=
        fun bb => ne_nil_of_getLast? _ c (htail bb)
      by_cases ha : isWs a = true
      · cases b with
        | true =>
          have hstep : collapseWsAux true (a :: d :: ds) =
              collapseWsAux true (d :: ds) := by
            simp [collapseWsAux, ha]
          rw [hstep]
          exact htail true
        | false =>
          have hstep : collapseWsAux false (a :: d :: ds) =
              32 :: collapseWsAux true (d :: ds) := by
            simp [collapseWsAux, ha]
          rw [hstep, getLast?_cons_ne_nil _ _ (hne true)]
          exact htail true
      · have ha2 : isWs a = false := by simpa using ha
        have hstep : collapseWsAux b (a :: d :: ds) =
            a :: collapseWsAux false (d :: ds) := by
          simp [collapseWsAux, ha2]
        rw [hstep, getLast?_cons_ne_nil _ _ (hne false)]
        exact htail false

/-- Whitespace collapsing keeps a non-whitespace head in place. -/
theorem collapseWsAux_cons_nonws (b : Bool) (c : Nat) (cs : List Nat)
    (h : isWs c = false) :
    collapseWsAux b (c :: cs) = c :: collapseWsAux false cs := by
  simp [collapseWsAux, h]

/-- Leading-whitespace removal is the identity on a non-whitespace head. -/
theorem dropWhile_cons_nonws (c : Nat) (cs : List Nat) (h : isWs c = false) :
    (c :: cs).dropWhile isWs = c :: cs := by
  simp [List.dropWhile_cons, h]

/-- The head of a trailing-stripped text is the head of the text. -/
theorem dropTrailingWs_head (l : List Nat) (c : Nat) (u : List Nat)
    (h : dropTrailingWs l = c :: u) : l.head? = some c := by
  cases l with
  | nil => cases h
  | cons a as =>
    have hd : dropTrailingWs (a :: as) =
        if (dropTrailingWs as).isEmpty ∧ isWs a = true then []
        else a :: dropTrailingWs as := rfl
    rw [hd] at h
    by_cases hcnd : (dropTrailingWs as).isEmpty ∧ isWs a = true
    · rw [if_pos hcnd] at h; cases h
    · rw [if_neg hcnd] at h
      injection h with h1 _
      rw [h1]
      rfl

/-- The head of a leading-stripped text is not whitespace. -/
theorem head_dropWhile_nonws : ∀ (l : List Nat) (c : Nat) (u : List Nat),
    l.dropWhile isWs = c :: u → isWs c = false := by
  intro l
  induction l with
  | nil => intro c u h; cases h
  | cons a as ih =>
    intro c u h
    by_cases ha : isWs a = true
    · rw [List.dropWhile_cons, if_pos ha] at h
      exact ih c u h
    · rw [List.dropWhile_cons, if_neg ha] at h
      injection h with h1 _
      rw [← h1]
      simpa using ha

/-- The head of a stripped text is not whitespace. -/
theorem stripL_head_nonws (l : List Nat) (c : Nat) (u : List Nat)
    (h : stripL l = c :: u) : isWs c = false := by
  unfold stripL at h
  have hh := dropTrailingWs_head _ c u h
  cases hd : l.dropWhile isWs with
  | nil => rw [hd] at hh; cases hh
  | cons x xs =>
    rw [hd] at hh
    have hx : x = c := by simpa using hh
    rw [← hx]
    exact head_dropWhile_nonws l x xs hd

/-- The percent-spacing substitution keeps the head character in place. -/
theorem pctFix_cons (c : Nat) (cs : List Nat) :
    ∃ u, pctFix (c :: cs) = c :: u := by
  show ∃ u, pctFixAux (cs.length + 1) (c :: cs) = c :: u
  by_cases hc : isDigit c = true
  · simp only [pctFixAux, if_pos hc]
    split
    · exact ⟨_, rfl⟩
    · exact ⟨_, rfl⟩
  · simp only [pctFixAux, if_neg hc]
    exact ⟨_, rfl⟩

/-- The Rs-spacing substitution keeps the head character in place. -/
theorem rsFix_cons (c : Nat) (cs : List Nat) :
    ∃ u, rsFix (c :: cs) = c :: u := by
  show ∃ u, rsFixAux (cs.length + 1) (c :: cs) = c :: u
  by_cases h : c = 82 ∧ cs.head? = some 115
  · simp only [rsFixAux, if_pos h]
    obtain ⟨h82, _⟩ := h
    subst h82
    split <;> split
    · exact ⟨_, rfl⟩
    · exact ⟨_, rfl⟩
    · exact ⟨_, rfl⟩
    · exact ⟨_, rfl⟩
  · simp only [rsFixAux, if_neg h]
    exact ⟨_, rfl⟩

/-- Punctuation enforcement makes every text end in terminal punctuation. -/
theorem endsTerminalB_ensurePunct (l : List Nat) :
    endsTerminalB (ensurePunct l) = true := by
  unfold ensurePunct
  by_cases h : endsTerminalB l = true
  · rw [if_pos h]; exact h
  · rw [if_neg h]
    unfold endsTerminalB
    rw [List.getLast?_concat]
    rfl

/-- Punctuation enforcement keeps the head character in place. -/
theorem ensurePunct_cons (c : Nat) (cs : List Nat) :
    ∃ u, ensurePunct (c :: cs) = c :: u := by
  unfold ensurePunct
  by_cases h : endsTerminalB (c :: cs) = true
  · rw [if_pos h]; exact ⟨cs, rfl⟩
  · rw [if_neg h]; exact ⟨cs ++ [46], List.cons_append c cs [46]⟩

/-- Capitalization leaves a head that is neither whitespace nor a
lowercase letter. -/
theorem capFirst_head (c : Nat) (cs : List Nat) (hws : isWs c = false) :
    ∃ e, capFirst (c :: cs) = e :: cs ∧ isWs e = false ∧ isLower e = false := by
  simp only [capFirst]
  by_cases h : isLower c = true
  · rw [if_pos h]
    refine ⟨toUpperC c, rfl, ?_, ?_⟩
    · unfold toUpperC
      rw [if_pos h]
      simp only [isLower, decide_eq_true_eq] at h
      simp only [isWs, decide_eq_false_iff_not]
      omega
    · unfold toUpperC
      rw [if_pos h]
      simp only [isLower, decide_eq_true_eq] at h
      simp only [isLower, decide_eq_false_iff_not]
      omega
  · rw [if_neg h]
    exact ⟨c, rfl, hws, by simpa using h⟩

/-- Capitalization preserves the terminal punctuation of the text. -/
theorem endsTerminalB_capFirst (l : List Nat) (h : endsTerminalB l = true) :
    endsTerminalB (capFirst l) = true := by
  cases l with
  | nil => exact h
  | cons c cs =>
    cases cs with
    | nil =>
      have hc : (c == 46 || c == 33 || c == 63) = true := by
        simpa [endsTerminalB] using h
      have hlow : isLower c = false := (terminal_not_ws c hc).2
      simp only [capFirst]
      rw [if_neg (by simp [hlow])]
      exact h
    | cons d ds =>
      simp only [capFirst]
      by_cases hc : isLower c = true
      · rw [if_pos hc]
        unfold endsTerminalB at h ⊢
        rw [List.getLast?_cons_cons] at h ⊢
        exact h
      · rw [if_neg hc]
        exact h

/-- A text ending in terminal punctuation has that mark as last element. -/
theorem endsTerminalB_getLast (l : List Nat) (h : endsTerminalB l = true) :
    ∃ c, l.getLast? = some c ∧ (c == 46 || c == 33 || c == 63) = true := by
  unfold endsTerminalB at h
  cases hl : l.getLast? with
  | none => rw [hl] at h; cases h
  | some c =>
    rw [hl] at h
    exact ⟨c, rfl, h⟩

/-- The sentence-boundary backup never lengthens the text. -/
theorem beforeLastDotSpace_length_le (l : List Nat) :
    (beforeLastDotSpace l).length ≤ l.length := by
  induction l with
  | nil => simp [beforeLastDotSpace]
  | cons c cs ih =>
    unfold beforeLastDotSpace
    by_cases h : c == 46 ∧ cs.head? = some 32 ∧ hasDotSpace cs = false
    · rw [if_pos h]; simp
    · rw [if_neg h]
      simp only [List.length_cons]
      omega

/-- The sentence-boundary backup returns the empty text or a text with
the same head. -/
theorem beforeLastDotSpace_head (c : Nat) (cs : List Nat) :
    beforeLastDotSpace (c :: cs) = [] ∨
    ∃ u, beforeLastDotSpace (c :: cs) = c :: u := by
  unfold beforeLastDotSpace
  by_cases h : c == 46 ∧ cs.head? = some 32 ∧ hasDotSpace cs = false
  · rw [if_pos h]; exact Or.inl rfl
  · rw [if_neg h]; exact Or.inr ⟨_, rfl⟩

/-- Claim C7, amended: for every raw answer that passes the ten-character
guard and on which the hedge-stripping pass makes no change, the cleaned
answer ends in terminal punctuation, does not begin with a lowercase
letter, and is at most 320 characters long. (The original stronger claim
fails: cleaning can return texts below the minimum threshold, above 300
characters, without an uppercase first letter, or even empty.) -/
theorem C7_cleaning_invariant (a : List Nat)
    (h10 : 10 ≤ (stripL a).length)
    (hnb : removeBoiler (preNormalize a) = preNormalize a) :
    endsTerminalB (clean_and_validate_answer a) = true ∧
    firstIsLower (clean_and_validate_answer a) = false ∧
    (clean_and_validate_answer a).length ≤ 320 := by
  have hne : a.isEmpty = false := isEmpty_false_of_strip_len a (by omega)
  have hguard : ¬(a.isEmpty = true ∨ (stripL a).length < 10) := by
    rintro (h | h)
    · rw [hne] at h; cases h
    · omega
  obtain ⟨c0, t0, hs⟩ : ∃ c0 t0, stripL a = c0 :: t0 := by
    cases hsl : stripL a with
    | nil => rw [hsl] at h10; simp at h10
    | cons x xs => exact ⟨x, xs, rfl⟩
  have hc0 : isWs c0 = false := stripL_head_nonws a c0 t0 hs
  have h1 : collapseWs (stripL a) = c0 :: collapseWsAux false t0 := by
    rw [hs]; exact collapseWsAux_cons_nonws false c0 t0 hc0
  obtain ⟨t2, h2⟩ := pctFix_cons c0 (collapseWsAux false t0)
  obtain ⟨t3, h3⟩ := rsFix_cons c0 t2
  obtain ⟨t4, h4⟩ := ensurePunct_cons c0 t3
  obtain ⟨e, h5, hews, helow⟩ := capFirst_head c0 t4 hc0
  have hpre : preNormalize a = e :: t4 := by
    unfold preNormalize
    rw [h1, h2, h3, h4, h5]
  have hterm : endsTerminalB (preNormalize a) = true := by
    unfold preNormalize
    exact endsTerminalB_capFirst _ (endsTerminalB_ensurePunct _)
  obtain ⟨cl, hlast, hclb⟩ := endsTerminalB_getLast _ hterm
  have hclws : isWs cl = false := (terminal_not_ws cl hclb).1
  have hq1 : collapseWs (preNormalize a) = e :: collapseWsAux false t4 := by
    rw [hpre]; exact collapseWsAux_cons_nonws false e t4 hews
  have hqlast : (collapseWs (preNormalize a)).getLast? = some cl :=
    collapseWsAux_getLast? _ false cl hlast hclws
  have hqstrip : stripL (collapseWs (preNormalize a)) = collapseWs (preNormalize a) := by
    have hdw : (collapseWs (preNormalize a)).dropWhile isWs =
        collapseWs (preNormalize a) := by
      rw [hq1]; exact dropWhile_cons_nonws e _ hews
    have hdt : dropTrailingWs (collapseWs (preNormalize a)) =
        collapseWs (preNormalize a) :=
      dropTrailingWs_eq_self _ cl hqlast hclws
    unfold stripL
    rw [hdw, hdt]
  have hval : clean_and_validate_answer a =
      finalTrunc (collapseWs (preNormalize a)) := by
    unfold clean_and_validate_answer
    rw [if_neg hguard, hnb, hqstrip]
  have hsterm : endsTerminalB (collapseWs (preNormalize a)) = true := by
    unfold endsTerminalB
    rw [hqlast]
    exact hclb
  have hsfirst : firstIsLower (collapseWs (preNormalize a)) = false := by
    rw [hq1]
    simpa [firstIsLower] using helow
  rw [hval]
  unfold finalTrunc
  by_cases hlen : 320 < (collapseWs (preNormalize a)).length
  · rw [if_pos hlen]
    refine ⟨?_, ?_, ?_⟩
    · unfold endsTerminalB
      rw [List.getLast?_concat]
      rfl
    · rw [hq1, List.take_succ_cons]
      rcases beforeLastDotSpace_head e ((collapseWsAux false t4).take 299) with h | ⟨u, h⟩
      · rw [h]; rfl
      · rw [h, List.cons_append]
        simpa [firstIsLower] using helow
    · rw [List.length_append]
      have hb := beforeLastDotSpace_length_le ((collapseWs (preNormalize a)).take 300)
      have ht : ((collapseWs (preNormalize a)).take 300).length ≤ 300 := by
        simp [List.length_take]
      simp only [List.length_cons, List.length_nil]
      omega
  · rw [if_neg hlen]
    exact ⟨hsterm, hsfirst, by omega⟩

/-- Witness for the amended claim C7 at a concrete input: a plain factual
answer passes the guard, is untouched by the hedge-stripping pass, and
the cleaned result satisfies the three properties. -/
theorem C7_cleaning_invariant_witness :
    endsTerminalB (clean_and_validate_answer (encode "The grace period is thirty days")) = true ∧
    firstIsLower (clean_and_validate_answer (encode "The grace period is thirty days")) = false ∧
    (clean_and_validate_answer (encode "The grace period is thirty days")).length ≤ 320 :=
  C7_cleaning_invariant (encode "The grace period is thirty days")
    (by decide) (by decide)

/-- Witness for the amended claim C6 at a concrete input: a long,
non-generic answer is accepted already on the first attempt. -/
theorem C6_acceptance_iff_witness :
    acceptsAnswer 0 (encode "The cover stays valid for one year.") = true :=
  (C6_acceptance_iff 0 (encode "The cover stays valid for one year.")).mpr
    ⟨by decide, Or.inl (by decide)⟩
